import Mathlib

/-!
Verification development for the polymorpher file-mutation tools.

The Python sources under `morpher/tools/` are shallowly embedded here:
text is `String`, Python `str.split('\n')` is modelled character by
character (`splitNlChars` / `splitNl`), Python `str.strip()` is modelled by
`pyStrip` (drop whitespace at both ends), `str.lower()` by `pyLower`
(character-wise `Char.toLower`), and the 0-based loop indices of the
matcher (which are Python `int`s and may go negative after the range
arithmetic) are `Int`.
-/

/-- Models the Python newline split `str.split` with a one-newline
separator, on the character list: the result is always nonempty, and
splitting the empty string gives a single empty chunk. -/
def splitNlChars : List Char → List (List Char)
  | [] => [[]]
  | c :: cs =>
    if c = '\n' then [] :: splitNlChars cs
    else
      match splitNlChars cs with
      | [] => [[c]]
      | h :: t => (c :: h) :: t

/-- Python `content.split` on a newline, at the `String` level. -/
def splitNl (s : String) : List String :=
  (splitNlChars s.data).map (fun cs => ⟨cs⟩)

/-- Python `chr(10).join(xs)`. -/
def joinNl : List String → String
  | [] => ""
  | [s] => s
  | s :: rest => s ++ "\n" ++ joinNl rest

/-- Models Python `str.strip()` (whitespace stripped from both ends). -/
def pyStrip (s : String) : String :=
  ⟨((s.data.dropWhile Char.isWhitespace).reverse.dropWhile Char.isWhitespace).reverse⟩

/-- Models Python `str.lower()` character-wise. -/
def pyLower (s : String) : String :=
  ⟨s.data.map Char.toLower⟩

namespace SearchReplace

/-- Embeds `LineMatch` from `search_and_replace.py`: a matched line (or joined block
of lines, for multi-line matches), its 1-based start line number and the
replacement lines. -/
structure LineMatch where
  lineNumber : Int
  originalLine : String
  replacementLines : List String
deriving DecidableEq

/-- The `replace` argument of the engine: Python `Union[str, List[str]]`. -/
inductive ReplaceArg where
  | ofString (s : String)
  | ofList (l : List String)
deriving DecidableEq

/-- Embeds `SearchReplaceConfig.__post_init__`: a bare string replacement is split
into lines, a list is kept as given. -/
def normalizeReplace : ReplaceArg → List String
  | .ofString s => splitNl s
  | .ofList l => l

/-- Embeds `SearchReplaceConfig` after `__post_init__` (replacement already
normalized to a list of lines). -/
structure SearchReplaceConfig where
  search : String
  replaceLines : List String
  caseSensitive : Bool
  startLine : Option Int
  endLine : Option Int
deriving DecidableEq

/-- Build a config the way the engine does from raw arguments. -/
def mkConfig (search : String) (replace : ReplaceArg) (cs : Bool)
    (sl el : Option Int) : SearchReplaceConfig :=
  ⟨search, normalizeReplace replace, cs, sl, el⟩

/-- Embeds `LineSearcher._line_matches`: compare the stripped search text against
the stripped candidate line, case-folding both first when the search is
case-insensitive. -/
def lineMatches (cs : Bool) (line search : String) : Bool :=
  let l := pyStrip line
  let s := pyStrip search
  if cs then s == l else pyLower s == pyLower l

/-- Embeds `LineSearcher._multiline_matches`: the candidate block matches when the
lengths agree and every corresponding pair of lines matches. -/
def multilineMatches (cs : Bool) (cand searchLines : List String) : Bool :=
  cand.length == searchLines.length &&
    (cand.zip searchLines).all (fun p => lineMatches cs p.1 p.2)

/-- Embeds `LineSearcher._find_single_line_matches`: the loop
`for i in range(start_idx, end_idx + 1)`, with `i` as the loop counter.
Python indexing `lines[i]` is modelled with `getD` (every reachable access
is in range, see `clampedStart`/`clampedEnd`). -/
def findSingleLineMatches (lines : List String) (search : String) (cs : Bool)
    (repl : List String) (endIdx : Int) (i : Int) : List LineMatch :=
  if h : i ≤ endIdx then
    let line := lines.getD i.toNat ""
    if lineMatches cs line search then
      ⟨i + 1, line, repl⟩ :: findSingleLineMatches lines search cs repl endIdx (i + 1)
    else
      findSingleLineMatches lines search cs repl endIdx (i + 1)
  else []
termination_by (endIdx + 1 - i).toNat
decreasing_by
  simp_wf
  omega

/-- Embeds `LineSearcher._find_multiline_matches`: the sliding-window loop
`while i <= end_idx - search_line_count + 1`, advancing by
`search_line_count` on a match and by `1` otherwise. The guard for
`searchLines = []` is unreachable from `findMatches` (Python `str.split`
never returns an empty list) and only makes the recursion well-founded. -/
def findMultilineMatches (lines searchLines : List String) (cs : Bool)
    (repl : List String) (endIdx : Int) (i : Int) : List LineMatch :=
  if hs : searchLines = [] then []
  else if h : i ≤ endIdx - searchLines.length + 1 then
    let cand := (lines.drop i.toNat).take searchLines.length
    if cand.length = searchLines.length ∧ multilineMatches cs cand searchLines then
      ⟨i + 1, joinNl cand, repl⟩ ::
        findMultilineMatches lines searchLines cs repl endIdx (i + searchLines.length)
    else
      findMultilineMatches lines searchLines cs repl endIdx (i + 1)
  else []
termination_by (endIdx - searchLines.length + 2 - i).toNat
decreasing_by
  all_goals simp_wf
  all_goals have hlen : 0 < searchLines.length := List.length_pos.mpr hs
  all_goals omega

/-- The pre-clamp start index: `(start_line - 1) if start_line else 0`
(Python truthiness: both `None` and `0` give `0`). -/
def rawStart (cfg : SearchReplaceConfig) : Int :=
  match cfg.startLine with
  | none => 0
  | some s => if s = 0 then 0 else s - 1

/-- The pre-clamp end index: `(end_line - 1) if end_line else len(lines) - 1`. -/
def rawEnd (content : String) (cfg : SearchReplaceConfig) : Int :=
  match cfg.endLine with
  | none => ((splitNl content).length : Int) - 1
  | some e => if e = 0 then ((splitNl content).length : Int) - 1 else e - 1

/-- Embeds `start_idx = max(0, start_idx)` in `find_matches`. -/
def clampedStart (cfg : SearchReplaceConfig) : Int :=
  max 0 (rawStart cfg)

/-- Embeds `end_idx = min(len(lines) - 1, end_idx)` in `find_matches`. -/
def clampedEnd (content : String) (cfg : SearchReplaceConfig) : Int :=
  min (((splitNl content).length : Int) - 1) (rawEnd content cfg)

/-- Embeds `LineSearcher.find_matches`: split the content into lines, clamp the
search range, and dispatch on whether the search text is multi-line. -/
def findMatches (content : String) (cfg : SearchReplaceConfig) : List LineMatch :=
  let lines := splitNl content
  let searchLines := splitNl cfg.search
  if 1 < searchLines.length then
    findMultilineMatches lines searchLines cfg.caseSensitive cfg.replaceLines
      (clampedEnd content cfg) (clampedStart cfg)
  else
    findSingleLineMatches lines cfg.search cfg.caseSensitive cfg.replaceLines
      (clampedEnd content cfg) (clampedStart cfg)

/-- One splice step of `OutputFormatter.format_default`: replace the
`lines_to_replace`-wide slot at `match.line_number - 1` by the replacement
lines, when the start index is in range. -/
def spliceOne (lines : List String) (m : LineMatch) : List String :=
  let idx : Int := m.lineNumber - 1
  let k := (splitNl m.originalLine).length
  if 0 ≤ idx ∧ idx < (lines.length : Int) then
    lines.take idx.toNat ++ m.replacementLines ++ lines.drop (idx.toNat + k)
  else lines

/-- Embeds `OutputFormatter.format_default` on in-memory content: apply the
replacements from the last match to the first (the Python
`for match in reversed(matches)` loop is a right fold) and re-join. -/
def formatDefault (content : String) (ms : List LineMatch) : String :=
  joinNl (ms.foldr (fun m acc => spliceOne acc m) (splitNl content))

/-- Embeds `FileResult` of the search-and-replace engine (`matchList` is the
`matches` field of the Python dataclass; `matches` is a Lean keyword). -/
structure FileResult where
  path : String
  matchList : List LineMatch
deriving DecidableEq

/-- Embeds `SearchReplaceResult` (the config is omitted; only the per-file results
matter to the verified claims). -/
structure SearchReplaceResult where
  fileResults : List FileResult
deriving DecidableEq

/-- The replacement normalized to a string, as in
`_is_search_replace_identical` (a list is joined with line breaks). -/
def replaceArgToString : ReplaceArg → String
  | .ofString s => s
  | .ofList l => joinNl l

/-- Embeds `SearchReplaceEngine._is_search_replace_identical`: normalize the
replacement to a string and compare whitespace-stripped patterns. -/
def isSearchReplaceIdentical (search : String) (replace : ReplaceArg) : Bool :=
  pyStrip search == pyStrip (replaceArgToString replace)

/-- Embeds `SearchReplaceEngine.search_and_replace` in apply mode with the default
output style and no separate output file, on an in-memory file system:
`files` is the resolved list of (path, content) pairs and the second
component collects the (path, new content) writes performed. -/
def searchAndReplaceApply (files : List (String × String)) (search : String)
    (replace : ReplaceArg) (cs : Bool) (sl el : Option Int) :
    SearchReplaceResult × List (String × String) :=
  if isSearchReplaceIdentical search replace then (⟨[]⟩, [])
  else
    let cfg := mkConfig search replace cs sl el
    let frs := files.map (fun pc => (⟨pc.1, findMatches pc.2 cfg⟩ : FileResult))
    let writes := files.filterMap (fun pc =>
      let ms := findMatches pc.2 cfg
      if ms.isEmpty then none else some (pc.1, formatDefault pc.2 ms))
    (⟨frs⟩, writes)

/-- Reference form of the single-line scan used by the proofs: the matches
of the listed lines, numbering them from `n`. -/
def singleFrom (cs : Bool) (search : String) (repl : List String) :
    List String → Int → List LineMatch
  | [], _ => []
  | l :: rest, n =>
    (if lineMatches cs l search then [⟨n, l, repl⟩] else []) ++
      singleFrom cs search repl rest (n + 1)

/-- Number of content lines a match consumes (`len(original_lines)` in
`format_default`). -/
def matchedLineCount (m : LineMatch) : Int :=
  ((splitNl m.originalLine).length : Int)

/-- Fuel-indexed form of the multi-line sliding-window loop, used by the
proofs to evaluate `findMultilineMatches` on concrete inputs (the
well-founded recursion of the latter does not reduce definitionally).
`findMultiFuel_spec` shows it agrees with `findMultilineMatches` whenever
the fuel covers the remaining iterations. -/
def findMultiFuel (lines searchLines : List String) (cs : Bool)
    (repl : List String) (endIdx : Int) : Nat → Int → List LineMatch
  | 0, _ => []
  | fuel + 1, i =>
    if i ≤ endIdx - searchLines.length + 1 then
      let cand := (lines.drop i.toNat).take searchLines.length
      if cand.length = searchLines.length ∧ multilineMatches cs cand searchLines then
        ⟨i + 1, joinNl cand, repl⟩ ::
          findMultiFuel lines searchLines cs repl endIdx fuel (i + searchLines.length)
      else
        findMultiFuel lines searchLines cs repl endIdx fuel (i + 1)
    else []

end SearchReplace

namespace WriteTool

/-- Embeds `WriteOperation` from `write.py`. -/
inductive WriteOperation where
  | create
  | overwrite
  | append
  | prepend
deriving DecidableEq

/-- Line-ending normalization from `WriteConfig.__post_init__` and
`WriteEngine._is_content_identical`:
`content.replace(CRLF, LF).replace(CR, LF)`, i.e. left-to-right every CRLF
collapses to LF, then every remaining lone CR becomes LF. -/
def normEolChars : List Char → List Char
  | [] => []
  | '\r' :: '\n' :: rest => '\n' :: normEolChars rest
  | '\r' :: rest => '\n' :: normEolChars rest
  | c :: rest => c :: normEolChars rest

/-- String-level line-ending normalization. -/
def normEol (s : String) : String :=
  ⟨normEolChars s.data⟩

/-- Python `s.endswith(chr(10))`: the last character is a newline. -/
def endsWithNl (s : String) : Bool :=
  s.data.getLast? == some '\n'

/-- Embeds `FileProcessor._prepare_content`: the content written for each
operation kind, given the original file content read beforehand (`""` when
the file is missing). The `create`-on-existing-file failure is handled by
the caller (`writeFileApply`), matching the `FileExistsError` raised in the
source being caught in `write_file`. -/
def prepareContent (op : WriteOperation) (original content : String) : String :=
  match op with
  | .create => content
  | .overwrite => content
  | .append =>
    if original ≠ "" ∧ endsWithNl original = false then original ++ "\n" ++ content
    else original ++ content
  | .prepend =>
    if content ≠ "" ∧ endsWithNl content = false then content ++ "\n" ++ original
    else content ++ original

/-- Embeds `WriteEngine._is_content_identical`: only for overwrite on an existing
file; both contents are line-ending-normalized and compared after
stripping. -/
def isContentIdentical (existing : Option String) (content : String)
    (op : WriteOperation) : Bool :=
  op == .overwrite &&
    (match existing with
     | none => false
     | some e => pyStrip (normEol e) == pyStrip (normEol content))

/-- A per-file result of the write engine: whether the prepared change had
any effect and whether the operation succeeded. -/
structure WFileResult where
  hasChange : Bool
  success : Bool
deriving DecidableEq

/-- Observable outcome of one `write_file` call in apply mode: the per-file
results, the content written to the target (none when nothing was
written), and whether a backup copy was made. -/
structure WriteOutcome where
  fileResults : List WFileResult
  written : Option String
  backedUp : Bool
deriving DecidableEq

/-- Embeds `WriteEngine.write_file` in apply mode with the default output style,
no separate output file, on an in-memory file: `existing` is the stored
content of the target path (`none` when the file does not exist) and
`backup` is the backup flag of the config. Mirrors the source: the
identical-content short-circuit returns an empty result; a `create` on an
existing path fails without writing; otherwise the change is prepared and,
when it differs from the original, a backup is made (for an existing
target) and the new content written. -/
def writeFileApply (existing : Option String) (content : String)
    (op : WriteOperation) (backup : Bool) : WriteOutcome :=
  if isContentIdentical existing content op then ⟨[], none, false⟩
  else
    let content' := normEol content
    let original := existing.getD ""
    if op = .create ∧ existing.isSome then ⟨[⟨false, false⟩], none, false⟩
    else
      let newContent := prepareContent op original content'
      if original ≠ newContent then
        ⟨[⟨true, true⟩], some newContent, backup && existing.isSome⟩
      else ⟨[⟨false, true⟩], none, false⟩

/-- The stored content of the target after an apply-mode call. -/
def storedAfter (existing : Option String) (o : WriteOutcome) : Option String :=
  match o.written with
  | some c => some c
  | none => existing

/-- Embeds `WriteResult.total_files_changed`. -/
def totalFilesChanged (o : WriteOutcome) : Nat :=
  o.fileResults.countP (fun fr => fr.hasChange)

end WriteTool

namespace IgnoreCtl

/-- Models Python `fnmatch.fnmatch` for the glob features the ignore rules
use: `*` matches any (possibly empty) run of characters, `?` any single
character, anything else matches itself. (Bracket character classes are
not modelled; no verified rule set uses them.) -/
def globMatch : List Char → List Char → Bool
  | [], [] => true
  | [], _ :: _ => false
  | '*' :: p, s =>
    globMatch p s ||
      (match s with
       | [] => false
       | _ :: s2 => globMatch ('*' :: p) s2)
  | '?' :: _, [] => false
  | '?' :: p, _ :: s => globMatch p s
  | _ :: _, [] => false
  | c :: p, d :: s => c == d && globMatch p s
termination_by p s => p.length + s.length
decreasing_by
  all_goals simp_wf
  all_goals omega

/-- Python `pat.lstrip("/")` on characters. -/
def dropSlashesL (cs : List Char) : List Char :=
  cs.dropWhile (fun c => c = '/')

/-- Python `pat.rstrip("/")` on characters. -/
def dropSlashesR (cs : List Char) : List Char :=
  (cs.reverse.dropWhile (fun c => c = '/')).reverse

/-- Embeds `IgnoreController._matches`: a `/`-terminated pattern matches when the
relative posix path equals the anchor without its trailing slash or starts
with the anchor; any other pattern is matched as a glob against the whole
relative path. The for-loop with early return is the `any` over patterns. -/
def matchesRules (patterns : List String) (relPosix : String) : Bool :=
  patterns.any (fun pat =>
    if pat.data.getLast? = some '/' then
      let anchor := dropSlashesL pat.data
      relPosix.data == dropSlashesR anchor || anchor.isPrefixOf relPosix.data
    else
      globMatch (dropSlashesL pat.data) relPosix.data)

/-- Embeds `IgnoreController.validate_access` (true means allowed): always true on
an empty rule set, otherwise the negation of `_matches`. The path
resolution against the workspace root is not modelled — `rel` stands for
the already-resolved posix path relative to the workspace root (paths that
resolve outside the root are allowed by the source before this check). -/
def validate_access (patterns : List String) (rel : String) : Bool :=
  if patterns.isEmpty then true
  else !(matchesRules patterns rel)

end IgnoreCtl

namespace PathGraph

/-- Embeds `PathTreeNode` from `path_graph.py`: a display segment, a leaf flag and
the ordered children (the Python dict keyed by name, in insertion order). -/
inductive PathTreeNode where
  | mk (name : String) (isLeaf : Bool) (children : List PathTreeNode)

/-- Displayed segment of the node. -/
def PathTreeNode.nodeName : PathTreeNode → String
  | .mk n _ _ => n

/-- Leaf flag of the node. -/
def PathTreeNode.nodeIsLeaf : PathTreeNode → Bool
  | .mk _ l _ => l

/-- Children of the node. -/
def PathTreeNode.nodeChildren : PathTreeNode → List PathTreeNode
  | .mk _ _ ch => ch

mutual

/-- Total number of nodes in a tree (termination measure for
`concentrate`). -/
def nodeCount : PathTreeNode → Nat
  | .mk _ _ ch => 1 + nodeListCount ch

/-- Total number of nodes in a forest. -/
def nodeListCount : List PathTreeNode → Nat
  | [] => 0
  | c :: cs => nodeCount c + nodeListCount cs

end

mutual

/-- Embeds `PathTreeNode.concentrate`: the while-loop absorbs a sole non-leaf
child, joining the names with `/` (what `os.path.join` does for these
relative segments) and adopting its children; afterwards every child is
concentrated recursively. -/
def concentrate : PathTreeNode → PathTreeNode
  | .mk name leaf ch => collapseStep name leaf ch

/-- One state of the `concentrate` while-loop: the current name, leaf flag
and children. -/
def collapseStep (name : String) (leaf : Bool) :
    List PathTreeNode → PathTreeNode
  | [PathTreeNode.mk cname cleaf cch] =>
    if cleaf then
      PathTreeNode.mk name leaf [concentrate (PathTreeNode.mk cname cleaf cch)]
    else
      collapseStep (name ++ "/" ++ cname) leaf cch
  | cs => PathTreeNode.mk name leaf (concentrateList cs)

/-- Helper: `concentrate` mapped over a forest (the final for-loop). -/
def concentrateList : List PathTreeNode → List PathTreeNode
  | [] => []
  | c :: cs => concentrate c :: concentrateList cs

end

/-- Embeds `PathTree.add_path` descent: add the remaining parts below the given
node; an existing child of the same name is reused (its leaf flag is kept,
as `add_child` does), a missing one is appended with the leaf flag of its
position. -/
def addParts : List String → PathTreeNode → PathTreeNode
  | [], n => n
  | p :: rest, .mk name leaf ch =>
    if ch.any (fun c => c.nodeName == p) then
      .mk name leaf (ch.map (fun c => if c.nodeName == p then addParts rest c else c))
    else
      .mk name leaf (ch ++ [addParts rest (.mk p rest.isEmpty [])])

/-- Embeds `PathTree`: an optional root. -/
structure PathTree where
  root : Option PathTreeNode

/-- Embeds `PathTree.add_path` on a list of path components: create the root from
the first component when absent, drop the first component when it names
the root, then descend. The empty-parts case is unreachable in the source
(`path_parts[0]` would fail) and returns the tree unchanged. -/
def addPath (t : PathTree) (parts : List String) : PathTree :=
  match parts with
  | [] => t
  | p0 :: _ =>
    match t.root with
    | none => ⟨some (addParts parts.tail (PathTreeNode.mk p0 false []))⟩
    | some r =>
      let parts2 := if r.nodeName == p0 then parts.tail else parts
      ⟨some (addParts parts2 r)⟩

end PathGraph

/-!
Helper lemmas. First the character-level facts about `splitNlChars`, then
the unfolding laws of the two matcher loops, then the characterization of
the single-line scan.
-/

theorem splitNlChars_ne_nil (cs : List Char) : splitNlChars cs ≠ [] := by
  induction cs with
  | nil => simp [splitNlChars]
  | cons c cs ih =>
    simp only [splitNlChars]
    split
    · simp
    · split
      · simp
      · simp

theorem nl_not_mem_of_mem_splitNlChars (cs : List Char) (p : List Char)
    (hp : p ∈ splitNlChars cs) : '\n' ∉ p := by
  induction cs generalizing p with
  | nil =>
    simp [splitNlChars] at hp
    simp [hp]
  | cons c cs ih =>
    simp only [splitNlChars] at hp
    by_cases hc : c = '\n'
    · simp [hc] at hp
      rcases hp with hp | hp
      · simp [hp]
      · exact ih p hp
    · simp [hc] at hp
      rcases hsp : splitNlChars cs with _ | ⟨h0, t0⟩
      · exact absurd hsp (splitNlChars_ne_nil cs)
      · rw [hsp] at hp
        simp at hp
        rcases hp with hp | hp
        · subst hp
          intro hmem
          rcases List.mem_cons.mp hmem with h | h
          · exact hc h.symm
          · exact ih h0 (by rw [hsp]; exact List.mem_cons_self h0 t0) h
        · exact ih p (by rw [hsp]; exact List.mem_cons_of_mem h0 hp)

theorem splitNlChars_of_nlFree (cs : List Char) (h : '\n' ∉ cs) :
    splitNlChars cs = [cs] := by
  induction cs with
  | nil => simp [splitNlChars]
  | cons c cs ih =>
    simp at h
    simp only [splitNlChars]
    rw [if_neg (fun hcc => h.1 hcc.symm), ih h.2]

theorem splitNlChars_append (a b : List Char) (h : '\n' ∉ a) :
    splitNlChars (a ++ '\n' :: b) = a :: splitNlChars b := by
  induction a with
  | nil => simp [splitNlChars]
  | cons c a ih =>
    simp at h
    rw [List.cons_append]
    simp only [splitNlChars]
    rw [if_neg (fun hcc => h.1 hcc.symm), ih h.2]

theorem splitNl_ne_nil (s : String) : splitNl s ≠ [] := by
  simp [splitNl, splitNlChars_ne_nil]

theorem nlFree_of_mem_splitNl (s t : String) (ht : t ∈ splitNl s) :
    '\n' ∉ t.data := by
  simp [splitNl] at ht
  rcases ht with ⟨p, hp, hpt⟩
  subst hpt
  exact nl_not_mem_of_mem_splitNlChars s.data p hp

theorem splitNl_of_nlFree (s : String) (h : '\n' ∉ s.data) :
    splitNl s = [s] := by
  simp [splitNl, splitNlChars_of_nlFree s.data h]

theorem data_append_nl (a b : String) :
    (a ++ "\n" ++ b).data = a.data ++ '\n' :: b.data := by
  simp [String.data_append]

theorem splitNl_joinNl (xs : List String) (hne : xs ≠ [])
    (hnf : ∀ x ∈ xs, '\n' ∉ x.data) : splitNl (joinNl xs) = xs := by
  induction xs with
  | nil => exact absurd rfl hne
  | cons x rest ih =>
    match rest with
    | [] =>
      simp only [joinNl]
      exact splitNl_of_nlFree x (hnf x (List.mem_cons_self x []))
    | y :: rest2 =>
      have hx : '\n' ∉ x.data := hnf x (List.mem_cons_self _ _)
      have hrest : ∀ x2 ∈ y :: rest2, '\n' ∉ x2.data :=
        fun x2 hx2 => hnf x2 (List.mem_cons_of_mem x hx2)
      show splitNl (x ++ "\n" ++ joinNl (y :: rest2)) = x :: y :: rest2
      rw [splitNl, data_append_nl, splitNlChars_append _ _ hx]
      rw [List.map_cons]
      rw [show (⟨x.data⟩ : String) = x from rfl]
      have := ih (by simp) hrest
      rw [splitNl] at this
      rw [this]

namespace SearchReplace

theorem findSingle_halt (lines : List String) (search : String) (cs : Bool)
    (repl : List String) (endIdx i : Int) (h : ¬ i ≤ endIdx) :
    findSingleLineMatches lines search cs repl endIdx i = [] := by
  rw [findSingleLineMatches]
  simp [h]

theorem findSingle_step (lines : List String) (search : String) (cs : Bool)
    (repl : List String) (endIdx i : Int) (h : i ≤ endIdx) :
    findSingleLineMatches lines search cs repl endIdx i =
      (if lineMatches cs (lines.getD i.toNat "") search then
        [(⟨i + 1, lines.getD i.toNat "", repl⟩ : LineMatch)] else []) ++
      findSingleLineMatches lines search cs repl endIdx (i + 1) := by
  rw [findSingleLineMatches]
  simp only [dif_pos h]
  split <;> simp

theorem findMulti_halt (lines searchLines : List String) (cs : Bool)
    (repl : List String) (endIdx i : Int)
    (h : ¬ i ≤ endIdx - searchLines.length + 1) :
    findMultilineMatches lines searchLines cs repl endIdx i = [] := by
  rw [findMultilineMatches]
  by_cases hs : searchLines = [] <;> simp [hs, h]

theorem findMulti_step (lines searchLines : List String) (cs : Bool)
    (repl : List String) (endIdx i : Int) (hs : searchLines ≠ [])
    (h : i ≤ endIdx - searchLines.length + 1) :
    findMultilineMatches lines searchLines cs repl endIdx i =
      (if ((lines.drop i.toNat).take searchLines.length).length = searchLines.length ∧
          multilineMatches cs ((lines.drop i.toNat).take searchLines.length) searchLines then
        (⟨i + 1, joinNl ((lines.drop i.toNat).take searchLines.length), repl⟩ : LineMatch) ::
          findMultilineMatches lines searchLines cs repl endIdx (i + searchLines.length)
      else
        findMultilineMatches lines searchLines cs repl endIdx (i + 1)) := by
  rw [findMultilineMatches]
  simp only [dif_neg hs, dif_pos h]

theorem findSingle_eq_singleFrom (lines : List String) (search : String)
    (cs : Bool) (repl : List String) (endIdx : Int)
    (hE : endIdx ≤ (lines.length : Int) - 1) :
    ∀ (k : Nat) (i : Int), 0 ≤ i → (endIdx + 1 - i).toNat ≤ k →
    findSingleLineMatches lines search cs repl endIdx i =
      singleFrom cs search repl ((lines.take (endIdx + 1).toNat).drop i.toNat) (i + 1) := by
  intro k
  induction k with
  | zero =>
    intro i hi hk
    have hgt : ¬ i ≤ endIdx := by omega
    rw [findSingle_halt lines search cs repl endIdx i hgt]
    rw [List.drop_eq_nil_of_le (by
      have := List.length_take (endIdx + 1).toNat lines
      omega)]
    rfl
  | succ k ih =>
    intro i hi hk
    by_cases h : i ≤ endIdx
    · have hlt : i.toNat < lines.length := by omega
      have hltE : i.toNat < (lines.take (endIdx + 1).toNat).length := by
        have := List.length_take (endIdx + 1).toNat lines
        omega
      rw [findSingle_step lines search cs repl endIdx i h]
      rw [List.drop_eq_getElem_cons hltE]
      rw [List.getElem_take lines]
      show _ = (if lineMatches cs lines[i.toNat] search then
          [(⟨i + 1, lines[i.toNat], repl⟩ : LineMatch)] else []) ++
        singleFrom cs search repl ((lines.take (endIdx + 1).toNat).drop (i.toNat + 1)) (i + 1 + 1)
      rw [List.getD_eq_getElem lines "" hlt]
      rw [ih (i + 1) (by omega) (by omega)]
      have : (i + 1).toNat = i.toNat + 1 := by omega
      rw [this]
    · rw [findSingle_halt lines search cs repl endIdx i h]
      rw [List.drop_eq_nil_of_le (by
        have := List.length_take (endIdx + 1).toNat lines
        omega)]
      rfl

end SearchReplace

namespace SearchReplace

theorem singleFrom_mem (cs : Bool) (search : String) (repl : List String) :
    ∀ (xs : List String) (n : Int) (m : LineMatch),
      m ∈ singleFrom cs search repl xs n →
      n ≤ m.lineNumber ∧ m.lineNumber < n + xs.length ∧ m.originalLine ∈ xs := by
  intro xs
  induction xs with
  | nil => intro n m hm; simp [singleFrom] at hm
  | cons l rest ih =>
    intro n m hm
    simp only [singleFrom, List.mem_append] at hm
    rcases hm with hm | hm
    · rcases (by split at hm <;> simp_all : m = ⟨n, l, repl⟩) with rfl
      refine ⟨le_refl _, ?_, List.mem_cons_self _ _⟩
      simp only [List.length_cons]
      push_cast
      omega
    · rcases ih (n + 1) m hm with ⟨h1, h2, h3⟩
      refine ⟨by omega, ?_, List.mem_cons_of_mem _ h3⟩
      simp only [List.length_cons]
      push_cast
      omega

theorem singleFrom_pairwise (cs : Bool) (search : String) (repl : List String) :
    ∀ (xs : List String) (n : Int),
      (singleFrom cs search repl xs n).Pairwise
        (fun a b => a.lineNumber < b.lineNumber) := by
  intro xs
  induction xs with
  | nil => intro n; simp [singleFrom]
  | cons l rest ih =>
    intro n
    simp only [singleFrom]
    refine List.pairwise_append.mpr ⟨?_, ih (n + 1), ?_⟩
    · split <;> simp
    · intro a ha b hb
      have ha2 : a = ⟨n, l, repl⟩ := by split at ha <;> simp_all
      rcases singleFrom_mem cs search repl rest (n + 1) b hb with ⟨h1, _, _⟩
      rw [ha2]
      show n < b.lineNumber
      omega

theorem singleFrom_eq_nil (cs : Bool) (search : String) (repl : List String) :
    ∀ (xs : List String) (n : Int),
      (∀ l ∈ xs, lineMatches cs l search = false) →
      singleFrom cs search repl xs n = [] := by
  intro xs
  induction xs with
  | nil => intro n _; rfl
  | cons l rest ih =>
    intro n h
    simp only [singleFrom]
    rw [if_neg (by simp [h l (List.mem_cons_self _ _)]), ih (n + 1)
      (fun l2 hl2 => h l2 (List.mem_cons_of_mem _ hl2))]
    rfl

theorem splice_singleFrom (cs : Bool) (search : String) (repl : List String) :
    ∀ (rest ctx : List String), (∀ l ∈ rest, '\n' ∉ l.data) →
      (singleFrom cs search repl rest ((ctx.length : Int) + 1)).foldr
          (fun m acc => spliceOne acc m) (ctx ++ rest) =
        ctx ++ rest.flatMap
          (fun l => if lineMatches cs l search then repl else [l]) := by
  intro rest
  induction rest with
  | nil => intro ctx _; simp [singleFrom]
  | cons l rest2 ih =>
    intro ctx hnf
    have hl : '\n' ∉ l.data := hnf l (List.mem_cons_self _ _)
    have hrest : ∀ l2 ∈ rest2, '\n' ∉ l2.data :=
      fun l2 h2 => hnf l2 (List.mem_cons_of_mem _ h2)
    simp only [singleFrom, List.foldr_append]
    have hctx1 : (ctx.length : Int) + 1 + 1 = (((ctx ++ [l]).length : Int)) + 1 := by
      simp only [List.length_append, List.length_cons, List.length_nil]
      push_cast
      omega
    have hsplit : ctx ++ l :: rest2 = (ctx ++ [l]) ++ rest2 := by simp
    have hinner : (singleFrom cs search repl rest2 ((ctx.length : Int) + 1 + 1)).foldr
        (fun m acc => spliceOne acc m) (ctx ++ l :: rest2) =
        (ctx ++ [l]) ++ rest2.flatMap
          (fun l2 => if lineMatches cs l2 search then repl else [l2]) := by
      rw [hctx1, hsplit]
      exact ih (ctx ++ [l]) hrest
    by_cases hP : lineMatches cs l search
    · rw [if_pos hP]
      simp only [List.foldr_cons, List.foldr_nil]
      rw [hinner]
      rw [spliceOne]
      have hk : (splitNl l).length = 1 := by
        rw [splitNl_of_nlFree l hl]
        rfl
      simp only [hk]
      have hlenN : ((ctx ++ [l]) ++ rest2.flatMap
          (fun l2 => if lineMatches cs l2 search then repl else [l2])).length =
          ctx.length + 1 + (rest2.flatMap
            (fun l2 => if lineMatches cs l2 search then repl else [l2])).length := by
        rw [List.length_append, List.length_append]
        rfl
      rw [if_pos (by rw [hlenN]; push_cast; omega)]
      have htoNat : ((ctx.length : Int) + 1 - 1).toNat = ctx.length := by omega
      rw [htoNat]
      rw [show (ctx ++ [l]) ++ rest2.flatMap
          (fun l2 => if lineMatches cs l2 search then repl else [l2]) =
        ctx ++ ([l] ++ rest2.flatMap
          (fun l2 => if lineMatches cs l2 search then repl else [l2])) from by simp]
      rw [List.take_left]
      rw [show ctx ++ ([l] ++ rest2.flatMap
          (fun l2 => if lineMatches cs l2 search then repl else [l2])) =
        (ctx ++ [l]) ++ rest2.flatMap
          (fun l2 => if lineMatches cs l2 search then repl else [l2]) from by simp]
      rw [show ctx.length + 1 = (ctx ++ [l]).length from by simp]
      rw [List.drop_left]
      rw [List.flatMap_cons, if_pos hP, List.append_assoc]
    · rw [if_neg hP]
      simp only [List.foldr_nil]
      rw [hinner]
      rw [List.flatMap_cons, if_neg hP]
      simp

end SearchReplace

namespace SearchReplace

theorem findMulti_mem (lines searchLines : List String) (cs : Bool)
    (repl : List String) (endIdx : Int) (hs : searchLines ≠ [])
    (hlines : ∀ l ∈ lines, '\n' ∉ l.data) :
    ∀ (k : Nat) (i : Int), 0 ≤ i → (endIdx - searchLines.length + 2 - i).toNat ≤ k →
    ∀ m ∈ findMultilineMatches lines searchLines cs repl endIdx i,
      i + 1 ≤ m.lineNumber ∧ m.lineNumber + (searchLines.length : Int) - 1 ≤ endIdx + 1 ∧
        matchedLineCount m = searchLines.length := by
  have hN : 0 < searchLines.length := List.length_pos.mpr hs
  intro k
  induction k with
  | zero =>
    intro i hi hk m hm
    rw [findMulti_halt lines searchLines cs repl endIdx i (by omega)] at hm
    simp at hm
  | succ k ih =>
    intro i hi hk m hm
    by_cases h : i ≤ endIdx - searchLines.length + 1
    · rw [findMulti_step lines searchLines cs repl endIdx i hs h] at hm
      split at hm
      · rename_i hcond
        rcases List.mem_cons.mp hm with rfl | hm2
        · have hcand_ne : (lines.drop i.toNat).take searchLines.length ≠ [] := by
            intro hnil
            rw [hnil] at hcond
            simp at hcond
            omega
          have hcand_nf :
              ∀ x ∈ (lines.drop i.toNat).take searchLines.length, '\n' ∉ x.data :=
            fun x hx => hlines x (List.mem_of_mem_drop (List.mem_of_mem_take hx))
          refine ⟨le_refl _, ?_, ?_⟩
          · show i + 1 + (searchLines.length : Int) - 1 ≤ endIdx + 1
            omega
          · show ((splitNl (joinNl ((lines.drop i.toNat).take searchLines.length))).length : Int) =
              (searchLines.length : Int)
            rw [splitNl_joinNl _ hcand_ne hcand_nf, hcond.1]
        · rcases ih (i + searchLines.length) (by omega) (by omega) m hm2 with ⟨h1, h2, h3⟩
          exact ⟨by omega, h2, h3⟩
      · rcases ih (i + 1) (by omega) (by omega) m hm with ⟨h1, h2, h3⟩
        exact ⟨by omega, h2, h3⟩
    · rw [findMulti_halt lines searchLines cs repl endIdx i h] at hm
      simp at hm

theorem findMulti_pairwise (lines searchLines : List String) (cs : Bool)
    (repl : List String) (endIdx : Int) (hs : searchLines ≠ [])
    (hlines : ∀ l ∈ lines, '\n' ∉ l.data) :
    ∀ (k : Nat) (i : Int), 0 ≤ i → (endIdx - searchLines.length + 2 - i).toNat ≤ k →
    (findMultilineMatches lines searchLines cs repl endIdx i).Pairwise
      (fun a b => a.lineNumber + (searchLines.length : Int) ≤ b.lineNumber) := by
  have hN : 0 < searchLines.length := List.length_pos.mpr hs
  intro k
  induction k with
  | zero =>
    intro i hi hk
    rw [findMulti_halt lines searchLines cs repl endIdx i (by omega)]
    simp
  | succ k ih =>
    intro i hi hk
    by_cases h : i ≤ endIdx - searchLines.length + 1
    · rw [findMulti_step lines searchLines cs repl endIdx i hs h]
      split
      · refine List.pairwise_cons.mpr ⟨?_, ih (i + searchLines.length) (by omega) (by omega)⟩
        intro b hb
        rcases findMulti_mem lines searchLines cs repl endIdx hs hlines (k + 1)
          (i + searchLines.length) (by omega) (by omega) b hb with ⟨h1, _, _⟩
        show i + 1 + (searchLines.length : Int) ≤ b.lineNumber
        omega
      · exact ih (i + 1) (by omega) (by omega)
    · rw [findMulti_halt lines searchLines cs repl endIdx i h]
      simp

end SearchReplace

namespace SearchReplace

theorem findMultiFuel_spec (lines searchLines : List String) (cs : Bool)
    (repl : List String) (endIdx : Int) (hs : searchLines ≠ []) :
    ∀ (fuel : Nat) (i : Int), (endIdx - searchLines.length + 2 - i).toNat ≤ fuel →
      findMultilineMatches lines searchLines cs repl endIdx i =
        findMultiFuel lines searchLines cs repl endIdx fuel i := by
  have hN : 0 < searchLines.length := List.length_pos.mpr hs
  intro fuel
  induction fuel with
  | zero =>
    intro i hk
    rw [findMulti_halt lines searchLines cs repl endIdx i (by omega)]
    rfl
  | succ fuel ih =>
    intro i hk
    by_cases h : i ≤ endIdx - searchLines.length + 1
    · rw [findMulti_step lines searchLines cs repl endIdx i hs h]
      simp only [findMultiFuel, if_pos h]
      split
      · rw [ih (i + searchLines.length) (by omega)]
      · rw [ih (i + 1) (by omega)]
    · rw [findMulti_halt lines searchLines cs repl endIdx i h]
      simp only [findMultiFuel, if_neg h]

theorem findMatches_multi (content : String) (cfg : SearchReplaceConfig)
    (h : 1 < (splitNl cfg.search).length) :
    findMatches content cfg =
      findMultilineMatches (splitNl content) (splitNl cfg.search) cfg.caseSensitive
        cfg.replaceLines (clampedEnd content cfg) (clampedStart cfg) := by
  rw [findMatches]
  simp only [if_pos h]

theorem findMatches_single (content : String) (cfg : SearchReplaceConfig)
    (h : ¬ 1 < (splitNl cfg.search).length) :
    findMatches content cfg =
      findSingleLineMatches (splitNl content) cfg.search cfg.caseSensitive
        cfg.replaceLines (clampedEnd content cfg) (clampedStart cfg) := by
  rw [findMatches]
  simp only [if_neg h]

end SearchReplace

namespace SearchReplace

theorem pyLower_eq_empty (s : String) (h : pyLower s = "") : s = "" := by
  have hd : s.data.map Char.toLower = [] := congrArg String.data h
  have hnil : s.data = [] := List.map_eq_nil_iff.mp hd
  exact String.ext hnil

theorem lineMatches_empty_false (cs : Bool) (l : String)
    (h : pyStrip l ≠ "") : lineMatches cs l "" = false := by
  cases cs with
  | true =>
    show (pyStrip "" == pyStrip l) = false
    rw [show pyStrip "" = "" from rfl]
    exact beq_eq_false_iff_ne.mpr (fun he => h he.symm)
  | false =>
    show (pyLower (pyStrip "") == pyLower (pyStrip l)) = false
    rw [show pyLower (pyStrip "") = "" from rfl]
    exact beq_eq_false_iff_ne.mpr (fun he => h (pyLower_eq_empty _ he.symm))

theorem clampedStart_nonneg (cfg : SearchReplaceConfig) : 0 ≤ clampedStart cfg :=
  le_max_left 0 (rawStart cfg)

theorem clampedEnd_le (content : String) (cfg : SearchReplaceConfig) :
    clampedEnd content cfg ≤ ((splitNl content).length : Int) - 1 :=
  min_le_left _ _

theorem findMatches_single_eq (content : String) (cfg : SearchReplaceConfig)
    (h : ¬ 1 < (splitNl cfg.search).length) :
    findMatches content cfg =
      singleFrom cfg.caseSensitive cfg.search cfg.replaceLines
        (((splitNl content).take ((clampedEnd content cfg + 1).toNat)).drop
          (clampedStart cfg).toNat)
        (clampedStart cfg + 1) := by
  rw [findMatches_single content cfg h]
  exact findSingle_eq_singleFrom (splitNl content) cfg.search cfg.caseSensitive
    cfg.replaceLines (clampedEnd content cfg) (clampedEnd_le content cfg)
    ((clampedEnd content cfg + 1 - clampedStart cfg).toNat) (clampedStart cfg)
    (clampedStart_nonneg cfg) (le_refl _)

end SearchReplace

/-- C3 (counterexample): the claim says an empty search never matches any
line, but on the one-blank-line content `""` the empty search matches
line 1: `_line_matches` compares stripped strings and both strip to `""`. -/
theorem C3_counterexample :
    SearchReplace.findMatches ""
      (SearchReplace.mkConfig "" (SearchReplace.ReplaceArg.ofString "x") true none none) ≠ [] := by
  rw [SearchReplace.findMatches_single _ _ (by decide)]
  rw [SearchReplace.findSingle_eq_singleFrom _ _ _ _ _ (by decide) 5 _ (by decide) (by decide)]
  decide

/-- C3 (amended): an empty search text matches exactly the lines whose
whitespace-stripped form is empty; in particular, `findMatches` with an
empty search returns the empty match sequence whenever no line of the
content strips to the empty string. -/
theorem C3_empty_search_no_blank_lines (content : String)
    (replace : SearchReplace.ReplaceArg) (cs : Bool) (sl el : Option Int)
    (h : ∀ l ∈ splitNl content, pyStrip l ≠ "") :
    SearchReplace.findMatches content (SearchReplace.mkConfig "" replace cs sl el) = [] := by
  rw [SearchReplace.findMatches_single_eq content
    (SearchReplace.mkConfig "" replace cs sl el)
    ((by decide : ¬ 1 < (splitNl "").length))]
  apply SearchReplace.singleFrom_eq_nil
  intro l hl
  have hlin : l ∈ splitNl content :=
    List.mem_of_mem_take (List.mem_of_mem_drop hl)
  exact SearchReplace.lineMatches_empty_false cs l (h l hlin)

/-- C3 witness for the amended theorem. -/
theorem C3_empty_search_no_blank_lines_witness :
    SearchReplace.findMatches "a\nb"
      (SearchReplace.mkConfig "" (SearchReplace.ReplaceArg.ofString "x") true none none) = [] :=
  C3_empty_search_no_blank_lines "a\nb" (SearchReplace.ReplaceArg.ofString "x") true none none
    (by decide)

/-- C2 (counterexample): the claim asserts `isAllowed("src/build/x")` is
false under the rule `build/`, but `_matches` only tests
`rel == anchor.rstrip("/")` and `rel.startswith(anchor)`, so a nested
`build` directory is not matched and access is allowed. -/
theorem C2_counterexample :
    IgnoreCtl.validate_access ["build/"] "src/build/x" = true := by decide

/-- C2 (amended): under the single rule `build/`,
`isAllowed("build/output.txt")` is false and `isAllowed("other/output.txt")`
is true, but `isAllowed("src/build/x")` is true — the `/`-terminated
pattern is a prefix match from the root of the relative path, not a match
anywhere in it; and with an empty rule set every path is allowed. -/
theorem C2_pathguard_rules (p : String) :
    IgnoreCtl.validate_access ["build/"] "build/output.txt" = false ∧
    IgnoreCtl.validate_access ["build/"] "src/build/x" = true ∧
    IgnoreCtl.validate_access ["build/"] "other/output.txt" = true ∧
    IgnoreCtl.validate_access [] p = true :=
  ⟨by decide, by decide, by decide, rfl⟩

/-- C7 (counterexample): appending to an empty original inserts no
separating line break (the Python truthiness test `if original_content`
fails), although the empty original has no trailing line break — the claim
as stated would require `"" + LF + "x"`. -/
theorem C7_counterexample :
    WriteTool.prepareContent WriteTool.WriteOperation.append "" "x" = "x" ∧
    ("x" : String) ≠ "" ++ "\n" ++ "x" := by
  constructor
  · decide
  · decide

/-- C7 (amended): Append joins the new content after the original with
exactly one separating line break when the original is nonempty and lacks
a trailing one, and with no extra break when the original ends with a line
break or is empty; Prepend is the mirror, keyed on the new content. -/
theorem C7_append_prepend (o c : String) :
    (o ≠ "" → WriteTool.endsWithNl o = false →
      WriteTool.prepareContent WriteTool.WriteOperation.append o c = o ++ "\n" ++ c) ∧
    (WriteTool.endsWithNl o = true →
      WriteTool.prepareContent WriteTool.WriteOperation.append o c = o ++ c) ∧
    (o = "" → WriteTool.prepareContent WriteTool.WriteOperation.append o c = c) ∧
    (c ≠ "" → WriteTool.endsWithNl c = false →
      WriteTool.prepareContent WriteTool.WriteOperation.prepend o c = c ++ "\n" ++ o) ∧
    (WriteTool.endsWithNl c = true →
      WriteTool.prepareContent WriteTool.WriteOperation.prepend o c = c ++ o) ∧
    (c = "" → WriteTool.prepareContent WriteTool.WriteOperation.prepend o c = o) := by
  refine ⟨?_, ?_, ?_, ?_, ?_, ?_⟩
  · intro h1 h2
    simp [WriteTool.prepareContent, h1, h2]
  · intro h
    simp [WriteTool.prepareContent, h]
  · intro h
    subst h
    simp [WriteTool.prepareContent]
  · intro h1 h2
    simp [WriteTool.prepareContent, h1, h2]
  · intro h
    simp [WriteTool.prepareContent, h]
  · intro h
    subst h
    simp [WriteTool.prepareContent]

/-- C7 witness. -/
theorem C7_append_prepend_witness :
    WriteTool.prepareContent WriteTool.WriteOperation.append "a" "b" = "a" ++ "\n" ++ "b" :=
  (C7_append_prepend "a" "b").1 (by decide) (by decide)

/-- C6: an Overwrite whose new content equals the existing content verbatim
after line-ending normalization short-circuits: the result reports zero
files changed, nothing is written, no backup is made, and the stored
content is unchanged. -/
theorem C6_overwrite_identical_noop (e content : String) (backup : Bool)
    (h : WriteTool.normEol content = WriteTool.normEol e) :
    WriteTool.totalFilesChanged
        (WriteTool.writeFileApply (some e) content WriteTool.WriteOperation.overwrite backup) = 0 ∧
    (WriteTool.writeFileApply (some e) content WriteTool.WriteOperation.overwrite backup).written
        = none ∧
    (WriteTool.writeFileApply (some e) content WriteTool.WriteOperation.overwrite backup).backedUp
        = false ∧
    WriteTool.storedAfter (some e)
        (WriteTool.writeFileApply (some e) content WriteTool.WriteOperation.overwrite backup)
      = some e := by
  have hid : WriteTool.isContentIdentical (some e) content
      WriteTool.WriteOperation.overwrite = true := by
    simp [WriteTool.isContentIdentical, h]
  rw [WriteTool.writeFileApply, if_pos hid]
  refine ⟨rfl, rfl, rfl, rfl⟩

/-- C6 witness. -/
theorem C6_overwrite_identical_noop_witness :
    WriteTool.totalFilesChanged
        (WriteTool.writeFileApply (some "x") "x" WriteTool.WriteOperation.overwrite true) = 0 ∧
    (WriteTool.writeFileApply (some "x") "x" WriteTool.WriteOperation.overwrite true).written
        = none ∧
    (WriteTool.writeFileApply (some "x") "x" WriteTool.WriteOperation.overwrite true).backedUp
        = false ∧
    WriteTool.storedAfter (some "x")
        (WriteTool.writeFileApply (some "x") "x" WriteTool.WriteOperation.overwrite true)
      = some "x" :=
  C6_overwrite_identical_noop "x" "x" true rfl

/-- C5: when the whitespace-stripped search text equals the
whitespace-stripped normalized replacement, the engine short-circuits: the
result carries zero per-file results and no file is scanned or written. -/
theorem C5_identical_short_circuit (files : List (String × String))
    (search : String) (replace : SearchReplace.ReplaceArg) (cs : Bool)
    (sl el : Option Int)
    (h : pyStrip search = pyStrip (SearchReplace.replaceArgToString replace)) :
    (SearchReplace.searchAndReplaceApply files search replace cs sl el).1.fileResults = [] ∧
    (SearchReplace.searchAndReplaceApply files search replace cs sl el).2 = [] := by
  have hid : SearchReplace.isSearchReplaceIdentical search replace = true := by
    simp [SearchReplace.isSearchReplaceIdentical, h]
  rw [SearchReplace.searchAndReplaceApply, if_pos hid]
  exact ⟨rfl, rfl⟩

/-- C5 witness. -/
theorem C5_identical_short_circuit_witness :
    (SearchReplace.searchAndReplaceApply [("f.txt", "a\nb")] "x"
        (SearchReplace.ReplaceArg.ofString " x ") true none none).1.fileResults = [] ∧
    (SearchReplace.searchAndReplaceApply [("f.txt", "a\nb")] "x"
        (SearchReplace.ReplaceArg.ofString " x ") true none none).2 = [] :=
  C5_identical_short_circuit [("f.txt", "a\nb")] "x"
    (SearchReplace.ReplaceArg.ofString " x ") true none none (by decide)

/-- C9: building the result tree from the single path `a/b/c/file.txt` and
compressing it collapses the chain of single-child non-leaf nodes into one
node displaying `a/b/c`, with the leaf `file.txt` as its only child. -/
theorem C9_tree_concentrate :
    (PathGraph.addPath ⟨none⟩ ["a", "b", "c", "file.txt"]).root.map PathGraph.concentrate =
      some (PathGraph.PathTreeNode.mk "a/b/c" false
        [PathGraph.PathTreeNode.mk "file.txt" true []]) := by
  simp [PathGraph.addPath, PathGraph.addParts, PathGraph.PathTreeNode.nodeName,
    PathGraph.concentrate, PathGraph.collapseStep, PathGraph.concentrateList]

/-- C8: when the clamped line range is malformed (clamped start index past
the clamped end index — e.g. `startLine > endLine`, or `startLine` beyond
the last line), `findMatches` returns the empty match sequence. -/
theorem C8_malformed_range_empty (content : String)
    (cfg : SearchReplace.SearchReplaceConfig)
    (h : SearchReplace.clampedEnd content cfg < SearchReplace.clampedStart cfg) :
    SearchReplace.findMatches content cfg = [] := by
  by_cases hm : 1 < (splitNl cfg.search).length
  · rw [SearchReplace.findMatches_multi content cfg hm]
    apply SearchReplace.findMulti_halt
    omega
  · rw [SearchReplace.findMatches_single content cfg hm]
    apply SearchReplace.findSingle_halt
    omega

/-- C8 witness: `start_line = 5`, `end_line = 2` on a three-line file. -/
theorem C8_malformed_range_empty_witness :
    SearchReplace.clampedEnd "a\nb\nc"
        (SearchReplace.mkConfig "b" (SearchReplace.ReplaceArg.ofString "z") true
          (some 5) (some 2)) <
      SearchReplace.clampedStart
        (SearchReplace.mkConfig "b" (SearchReplace.ReplaceArg.ofString "z") true
          (some 5) (some 2)) ∧
    SearchReplace.findMatches "a\nb\nc"
        (SearchReplace.mkConfig "b" (SearchReplace.ReplaceArg.ofString "z") true
          (some 5) (some 2)) = [] :=
  ⟨by decide, C8_malformed_range_empty "a\nb\nc" _ (by decide)⟩

/-- C1: the multi-line matcher slides a window of `N = len(search_lines)`
lines with step 1 over the clamped range: while the window start is within
`endIdx - N + 1`, a matching block is recorded (with its 1-based start
line) and the scan advances by `N` lines, so matched blocks never overlap,
while a non-matching position advances by 1; in particular, on content
lines `["A", "B", "A", "B"]` with search `"A\nB"` exactly two matches are
found, the first starting at line 1 and the second at line 3. -/
theorem C1_multiline_window_advance
    (lines searchLines : List String) (cs : Bool) (repl : List String)
    (endIdx i : Int) (hs : searchLines ≠ [])
    (h : i ≤ endIdx - searchLines.length + 1) :
    (SearchReplace.findMultilineMatches lines searchLines cs repl endIdx i =
      if ((lines.drop i.toNat).take searchLines.length).length = searchLines.length ∧
          SearchReplace.multilineMatches cs ((lines.drop i.toNat).take searchLines.length)
            searchLines then
        (⟨i + 1, joinNl ((lines.drop i.toNat).take searchLines.length), repl⟩ :
            SearchReplace.LineMatch) ::
          SearchReplace.findMultilineMatches lines searchLines cs repl endIdx
            (i + searchLines.length)
      else
        SearchReplace.findMultilineMatches lines searchLines cs repl endIdx (i + 1)) ∧
    (SearchReplace.findMatches "A\nB\nA\nB"
        (SearchReplace.mkConfig "A\nB" (SearchReplace.ReplaceArg.ofString "X") true
          none none)).map
      (fun m => m.lineNumber) = [1, 3] := by
  constructor
  · exact SearchReplace.findMulti_step lines searchLines cs repl endIdx i hs h
  · rw [SearchReplace.findMatches_multi _ _ (by decide)]
    rw [SearchReplace.findMultiFuel_spec _ _ _ _ _ (by decide) 5 _ (by decide)]
    decide

/-- C1 witness: the step law at the concrete first window of the example. -/
theorem C1_multiline_window_advance_witness :
    SearchReplace.findMultilineMatches ["A", "B", "A", "B"] ["A", "B"] true ["X"] 3 0 =
      (⟨1, joinNl ["A", "B"], ["X"]⟩ : SearchReplace.LineMatch) ::
        SearchReplace.findMultilineMatches ["A", "B", "A", "B"] ["A", "B"] true ["X"] 3
          (0 + (["A", "B"] : List String).length) := by
  have h := (C1_multiline_window_advance ["A", "B", "A", "B"] ["A", "B"] true ["X"] 3 0
    (by decide) (by decide)).1
  rw [h, if_pos (by decide)]
  norm_num

/-- C10: for every content and spec, the matches returned by `findMatches`
have strictly increasing start line numbers, every match lies entirely
inside the clamped search window, and in multi-line mode the line blocks
consumed by distinct matches are pairwise disjoint (each match ends before
the next begins). -/
theorem C10_match_invariants (content : String)
    (cfg : SearchReplace.SearchReplaceConfig) :
    (SearchReplace.findMatches content cfg).Pairwise
      (fun a b => a.lineNumber < b.lineNumber) ∧
    (∀ m ∈ SearchReplace.findMatches content cfg,
      SearchReplace.clampedStart cfg + 1 ≤ m.lineNumber ∧
      m.lineNumber + SearchReplace.matchedLineCount m - 1 ≤
        SearchReplace.clampedEnd content cfg + 1) ∧
    (1 < (splitNl cfg.search).length →
      (SearchReplace.findMatches content cfg).Pairwise
        (fun a b => a.lineNumber + SearchReplace.matchedLineCount a ≤ b.lineNumber)) := by
  have hlines : ∀ l ∈ splitNl content, '\n' ∉ l.data :=
    fun l hl => nlFree_of_mem_splitNl content l hl
  by_cases hm : 1 < (splitNl cfg.search).length
  · have hs : splitNl cfg.search ≠ [] := by
      intro h0
      rw [h0] at hm
      simp at hm
    have hN : 0 < (splitNl cfg.search).length := by omega
    rw [SearchReplace.findMatches_multi content cfg hm]
    have hmem := SearchReplace.findMulti_mem (splitNl content) (splitNl cfg.search)
      cfg.caseSensitive cfg.replaceLines (SearchReplace.clampedEnd content cfg) hs hlines
      ((SearchReplace.clampedEnd content cfg - (splitNl cfg.search).length + 2 -
        SearchReplace.clampedStart cfg).toNat)
      (SearchReplace.clampedStart cfg) (SearchReplace.clampedStart_nonneg cfg) (le_refl _)
    have hpw := SearchReplace.findMulti_pairwise (splitNl content) (splitNl cfg.search)
      cfg.caseSensitive cfg.replaceLines (SearchReplace.clampedEnd content cfg) hs hlines
      ((SearchReplace.clampedEnd content cfg - (splitNl cfg.search).length + 2 -
        SearchReplace.clampedStart cfg).toNat)
      (SearchReplace.clampedStart cfg) (SearchReplace.clampedStart_nonneg cfg) (le_refl _)
    refine ⟨?_, ?_, ?_⟩
    · exact hpw.imp (fun hab => by omega)
    · intro m hmm
      rcases hmem m hmm with ⟨h1, h2, h3⟩
      refine ⟨h1, ?_⟩
      rw [h3]
      exact h2
    · intro _
      refine List.Pairwise.imp_of_mem ?_ hpw
      intro a b ha hb hr
      rcases hmem a ha with ⟨_, _, h3a⟩
      rw [h3a]
      exact hr
  · rw [SearchReplace.findMatches_single_eq content cfg hm]
    have hsub : ∀ l ∈ ((splitNl content).take
          ((SearchReplace.clampedEnd content cfg + 1).toNat)).drop
          (SearchReplace.clampedStart cfg).toNat,
        l ∈ splitNl content :=
      fun l hl => List.mem_of_mem_take (List.mem_of_mem_drop hl)
    refine ⟨SearchReplace.singleFrom_pairwise _ _ _ _ _, ?_, ?_⟩
    · intro m hmm
      rcases SearchReplace.singleFrom_mem _ _ _ _ _ m hmm with ⟨h1, h2, h3⟩
      have hcount : SearchReplace.matchedLineCount m = 1 := by
        rw [SearchReplace.matchedLineCount,
          splitNl_of_nlFree _ (hlines _ (hsub _ h3))]
        rfl
      refine ⟨h1, ?_⟩
      rw [hcount]
      have h4 : (((splitNl content).take
            ((SearchReplace.clampedEnd content cfg + 1).toNat)).drop
            (SearchReplace.clampedStart cfg).toNat).length =
          ((splitNl content).take
            ((SearchReplace.clampedEnd content cfg + 1).toNat)).length -
            (SearchReplace.clampedStart cfg).toNat := List.length_drop _ _
      have h5 : ((splitNl content).take
            ((SearchReplace.clampedEnd content cfg + 1).toNat)).length ≤
          (SearchReplace.clampedEnd content cfg + 1).toNat := by
        rw [List.length_take]
        exact Nat.min_le_left _ _
      have hs0 := SearchReplace.clampedStart_nonneg cfg
      omega
    · intro hcontr
      exact absurd hcontr hm

namespace SearchReplace

theorem findMatches_single_noRange (content search : String) (cs : Bool)
    (repl : List String) (h : ¬ 1 < (splitNl search).length) :
    findMatches content ⟨search, repl, cs, none, none⟩ =
      singleFrom cs search repl (splitNl content) 1 := by
  rw [findMatches_single_eq content ⟨search, repl, cs, none, none⟩ h]
  have hS : clampedStart ⟨search, repl, cs, none, none⟩ = 0 := by
    simp [clampedStart, rawStart]
  have hE : clampedEnd content ⟨search, repl, cs, none, none⟩ =
      ((splitNl content).length : Int) - 1 := by
    simp [clampedEnd, rawEnd]
  rw [hS, hE]
  have h1 : (((splitNl content).length : Int) - 1 + 1).toNat = (splitNl content).length := by
    omega
  rw [h1, List.take_length]
  simp

end SearchReplace

/-- C4 (counterexample): with search `"A"` and replacement `"A "`, the
replacement text differs from the search text, yet rendering the matched
file `"A"` in plain-content style yields `"A "`, whose stripped form still
matches the search — re-running `findMatches` finds a match again. -/
theorem C4_counterexample :
    ("A " : String) ≠ "A" ∧
    SearchReplace.findMatches
        (SearchReplace.formatDefault "A"
          (SearchReplace.findMatches "A"
            (SearchReplace.mkConfig "A" (SearchReplace.ReplaceArg.ofString "A ") true
              none none)))
        (SearchReplace.mkConfig "A" (SearchReplace.ReplaceArg.ofString "A ") true
          none none) ≠ [] := by
  refine ⟨by decide, ?_⟩
  rw [show SearchReplace.mkConfig "A" (SearchReplace.ReplaceArg.ofString "A ") true none none =
    ⟨"A", splitNl "A ", true, none, none⟩ from rfl]
  have h1 : SearchReplace.findMatches "A"
      (⟨"A", splitNl "A ", true, none, none⟩ : SearchReplace.SearchReplaceConfig) =
      [⟨1, "A", ["A "]⟩] := by
    rw [SearchReplace.findMatches_single_noRange "A" "A" true (splitNl "A ") (by decide)]
    decide
  rw [h1]
  have h2 : SearchReplace.formatDefault "A"
      [(⟨1, "A", ["A "]⟩ : SearchReplace.LineMatch)] = "A " := by decide
  rw [h2]
  rw [SearchReplace.findMatches_single_noRange "A " "A" true (splitNl "A ") (by decide)]
  decide

/-- C4 (amended): for a single-line search spec with no line-range
restriction, rendering the matched file in plain-content style and then
re-running `findMatches` with the same spec yields zero matches, provided
no replacement line matches the search under the line-match test of the spec
(stripped, case-folded comparison). The original claim — replacement
merely textually different from the search — fails because a replacement
can strip-match the search, and a multi-line pattern can even be recreated
across splice boundaries. -/
theorem C4_render_no_matches (content search replace : String) (cs : Bool)
    (hsingle : '\n' ∉ search.data)
    (hrep : ∀ r ∈ splitNl replace, SearchReplace.lineMatches cs r search = false) :
    SearchReplace.findMatches
      (SearchReplace.formatDefault content
        (SearchReplace.findMatches content
          (SearchReplace.mkConfig search (SearchReplace.ReplaceArg.ofString replace) cs
            none none)))
      (SearchReplace.mkConfig search (SearchReplace.ReplaceArg.ofString replace) cs
        none none) = [] := by
  have hmode : ¬ 1 < (splitNl search).length := by
    rw [splitNl_of_nlFree search hsingle]
    simp
  have hlines : ∀ l ∈ splitNl content, '\n' ∉ l.data :=
    fun l hl => nlFree_of_mem_splitNl content l hl
  have hcfg : SearchReplace.mkConfig search (SearchReplace.ReplaceArg.ofString replace)
      cs none none = ⟨search, splitNl replace, cs, none, none⟩ := rfl
  rw [hcfg]
  rw [SearchReplace.findMatches_single_noRange content search cs (splitNl replace) hmode]
  have hsplice := SearchReplace.splice_singleFrom cs search (splitNl replace)
    (splitNl content) [] hlines
  simp only [List.length_nil, List.nil_append, Nat.cast_zero, zero_add] at hsplice
  rw [SearchReplace.formatDefault, hsplice]
  have hflat_nf : ∀ x ∈ (splitNl content).flatMap
      (fun l => if SearchReplace.lineMatches cs l search then splitNl replace else [l]),
      '\n' ∉ x.data := by
    intro x hx
    rcases List.mem_flatMap.mp hx with ⟨l, hl, hxl⟩
    split at hxl
    · exact nlFree_of_mem_splitNl replace x hxl
    · rw [List.mem_singleton.mp hxl]
      exact hlines l hl
  have hflat_ne : (splitNl content).flatMap
      (fun l => if SearchReplace.lineMatches cs l search then splitNl replace else [l]) ≠ [] := by
    rcases hsplit : splitNl content with _ | ⟨l0, rest⟩
    · exact absurd hsplit (splitNl_ne_nil content)
    · rw [List.flatMap_cons]
      intro hnil
      rcases List.append_eq_nil.mp hnil with ⟨hh, _⟩
      split at hh
      · exact splitNl_ne_nil replace hh
      · simp at hh
  rw [SearchReplace.findMatches_single_noRange _ search cs (splitNl replace) hmode]
  rw [splitNl_joinNl _ hflat_ne hflat_nf]
  apply SearchReplace.singleFrom_eq_nil
  intro l hl
  rcases List.mem_flatMap.mp hl with ⟨l0, hl0, hll0⟩
  split at hll0
  · exact hrep l hll0
  · rename_i hneg
    rw [List.mem_singleton.mp hll0]
    simp at hneg
    exact hneg

/-- C4 witness. -/
theorem C4_render_no_matches_witness :
    SearchReplace.findMatches
      (SearchReplace.formatDefault "A\nB"
        (SearchReplace.findMatches "A\nB"
          (SearchReplace.mkConfig "A" (SearchReplace.ReplaceArg.ofString "C") true
            none none)))
      (SearchReplace.mkConfig "A" (SearchReplace.ReplaceArg.ofString "C") true
        none none) = [] :=
  C4_render_no_matches "A\nB" "A" "C" true (by decide) (by decide)

/-- C2 witness for the amended theorem, at a concrete path. -/
theorem C2_pathguard_rules_witness :
    IgnoreCtl.validate_access [] "anything" = true :=
  (C2_pathguard_rules "anything").2.2.2

/-- C10 witness at a concrete content and spec. -/
theorem C10_match_invariants_witness :
    (SearchReplace.findMatches "a\nb"
        (SearchReplace.mkConfig "a" (SearchReplace.ReplaceArg.ofString "z") true
          none none)).Pairwise
      (fun a b => a.lineNumber < b.lineNumber) :=
  (C10_match_invariants "a\nb"
    (SearchReplace.mkConfig "a" (SearchReplace.ReplaceArg.ofString "z") true none none)).1
